import Mathlib

/-!
# Verification of the XML extraction-and-aggregation core of `Dashboard.py`

This file is a shallow embedding, in Lean 4, of the extraction and
aggregation core of the repository's single source file `src/Dashboard.py`:

* `get_xml_text`            (Dashboard.py, lines 22-27)
* `parse_xml_base`          (Dashboard.py, lines 30-112)  — the ItemExtractor
* `processar_diretorio_xml` (Dashboard.py, lines 120-186) — the BatchProcessor
* `criar_resumo_produto`    (Dashboard.py, lines 244-282) — the ProductAggregator

Modelling conventions:

* XML element trees are modelled by `XmlTree` (a tag, an optional text, a
  list of children).  lxml's fully qualified tags `{uri}local` are modelled
  by the structured `QName` (an optional namespace URI plus a local name);
  Clark notation is only a serialization of that pair.
* Python floats are modelled by `ℚ`.  The numeric texts appearing in fiscal
  documents denote decimal literals, which are exactly representable; the
  IEEE-754 special values (`inf`, `nan`) and rounding are outside the model.
* `None` and strings are modelled by `Option String`; Python truthiness of
  such a value (`if s`, `a or b`) is modelled explicitly (`truthy`, `pyOr`):
  both `None` and the empty string are falsy.
* A text node produced by lxml parsing is either absent (`none`) or a
  non-empty string: `<a></a>` has `text == None`.  Hypotheses of the form
  `noEmptyTextT` record this parser invariant where a proof needs it.
* Exceptions are modelled by `Except String`: `ET.parse` failure is the
  `XmlSource.malformed` constructor, and `element.find` raising
  `SyntaxError` (prefixed path with no prefix map) is `Except.error`.
-/

/-- The canonical NF-e namespace URI bound to the prefix `ns` in
`parse_xml_base` (Dashboard.py line 36). -/
def nsURI : String := "http://www.portalfiscal.inf.br/nfe"

/-- Python truthiness of an optional string: `None` and `""` are falsy. -/
def truthy : Option String → Bool
  | none => false
  | some s => !(s == "")

/-- Python's `a or b` on optional strings: returns `a` when `a` is truthy,
otherwise `b`. -/
def pyOr (a b : Option String) : Option String :=
  match a with
  | none => b
  | some s => if s == "" then b else some s

/-- Accumulating decimal-digit reader: consumes leading digits of the
character list, returning the value read so far, the number of digits
consumed, and the rest of the input. -/
def readDigitsAux : List Char → Nat → Nat → Nat × Nat × List Char
  | c :: rest, acc, n =>
    if c.isDigit then readDigitsAux rest (acc * 10 + (c.toNat - 48)) (n + 1)
    else (acc, n, c :: rest)
  | [], acc, n => (acc, n, [])

/-- Optional exponent part of a Python float literal: accepts `[eE][+-]?digits`
followed by end of input, or the empty rest; anything else is a parse
failure. -/
def parseExpPart (m : ℚ) : List Char → Option ℚ
  | [] => some m
  | c :: rest =>
    if c == 'e' || c == 'E' then
      match rest with
      | '+' :: r2 =>
        let (e, ne, r3) := readDigitsAux r2 0 0
        if ne == 0 || !r3.isEmpty then none else some (m * 10 ^ e)
      | '-' :: r2 =>
        let (e, ne, r3) := readDigitsAux r2 0 0
        if ne == 0 || !r3.isEmpty then none else some (m / 10 ^ e)
      | r2 =>
        let (e, ne, r3) := readDigitsAux r2 0 0
        if ne == 0 || !r3.isEmpty then none else some (m * 10 ^ e)
    else none

/-- Unsigned part of a Python float literal: `digits [. digits] [exp]`,
`digits. [exp]` or `.digits [exp]`. -/
def parseFloatCore (cs : List Char) : Option ℚ :=
  let (ip, ni, r1) := readDigitsAux cs 0 0
  match r1 with
  | '.' :: r2 =>
    let (fp, nf, r3) := readDigitsAux r2 0 0
    if ni == 0 && nf == 0 then none
    else parseExpPart (((ip * 10 ^ nf + fp : Nat) : ℚ) / ((10 ^ nf : Nat) : ℚ)) r3
  | _ => if ni == 0 then none else parseExpPart ((ip : Nat) : ℚ) r1

/-- Drop leading whitespace characters. -/
def dropLeadingWs : List Char → List Char
  | [] => []
  | c :: rest => if c.isWhitespace then dropLeadingWs rest else c :: rest

/-- Strip whitespace from both ends (what `float` does with its argument). -/
def pyStrip (cs : List Char) : List Char :=
  ((dropLeadingWs cs.reverse).reverse |> dropLeadingWs)

/-- Model of Python's `float(s)` on the decimal-literal fragment: optional
surrounding whitespace, optional sign, decimal mantissa, optional exponent.
`none` models `float` raising `ValueError`.  (`inf`/`nan` literals and digit
underscores are outside the rational model.) -/
def parseFloat (s : String) : Option ℚ :=
  match pyStrip s.toList with
  | '+' :: cs => parseFloatCore cs
  | '-' :: cs => (parseFloatCore cs).map Neg.neg
  | cs => parseFloatCore cs

/-- Model of `float(t) if t else 0.0` guarded by
`except (ValueError, TypeError): 0.0` (Dashboard.py lines 85-93): a falsy
text (missing field or empty string) and an unparsable text both degrade to
`0.0`. -/
def pyFloatOrZero (t : Option String) : ℚ :=
  match t with
  | none => 0
  | some s => if s == "" then 0 else (parseFloat s).getD 0

/-- Strict lexicographic order on lists of naturals (used for code-point
comparison of strings, as Python's `<` on `str`). -/
def natListLt : List Nat → List Nat → Bool
  | [], [] => false
  | [], _ :: _ => true
  | _ :: _, [] => false
  | a :: as, b :: bs => if a < b then true else if b < a then false else natListLt as bs

/-- The code points of a string. -/
def codepoints (s : String) : List Nat := s.toList.map Char.toNat

/-- Python's `s < t` on strings: code-point lexicographic. -/
def pyStrLt (s t : String) : Bool := natListLt (codepoints s) (codepoints t)

/-- Python's `s <= t` on strings (total preorder used by sorting). -/
def pyStrLe (s t : String) : Bool := !(pyStrLt t s)

/-- A fully qualified XML tag as lxml sees it: `{uri}local` carries
`ns = some uri`, a bare `local` carries `ns = none`. -/
structure QName where
  ns : Option String
  base : String
deriving DecidableEq, Repr

mutual
/-- An XML element: qualified tag, optional text, ordered children. -/
inductive XmlTree where
  | node (tag : QName) (text : Option String) (children : XmlForest)
/-- An ordered forest of XML elements. -/
inductive XmlForest where
  | nil
  | cons (head : XmlTree) (tail : XmlForest)
end

def XmlTree.tag : XmlTree → QName
  | .node t _ _ => t

def XmlTree.text : XmlTree → Option String
  | .node _ x _ => x

def XmlTree.children : XmlTree → XmlForest
  | .node _ _ c => c

def XmlForest.toList : XmlForest → List XmlTree
  | .nil => []
  | .cons t ts => t :: ts.toList

mutual
/-- An element followed by all its descendants, in document (pre-)order. -/
def selfDescsT : XmlTree → List XmlTree
  | .node tg tx c => .node tg tx c :: selfDescsF c
/-- All elements of a forest and their descendants, in document order. -/
def selfDescsF : XmlForest → List XmlTree
  | .nil => []
  | .cons t ts => selfDescsT t ++ selfDescsF ts
end

/-- The strict descendants of an element, in document order: what the
ElementPath pattern `.//` ranges over (the context node is excluded). -/
def descendants (t : XmlTree) : List XmlTree := selfDescsF t.children

/-- `root.findall('.//tag', …)` with the path already resolved to a
qualified tag: all matching descendants in document order. -/
def findAllDesc (q : QName) (t : XmlTree) : List XmlTree :=
  (descendants t).filter (fun u => u.tag = q)

/-- `root.find('.//tag', …)`: first matching descendant in document order,
`none` when absent. -/
def findDesc (q : QName) (t : XmlTree) : Option XmlTree :=
  (findAllDesc q t).head?

/-- `element.find('./tag', …)`: first direct child with the given qualified
tag. -/
def findChild (q : QName) (t : XmlTree) : Option XmlTree :=
  t.children.toList.find? (fun u => u.tag = q)

mutual
/-- Strip every namespace qualifier from a document (the spec's "same
document with the namespace stripped"). -/
def stripT : XmlTree → XmlTree
  | .node tg tx c => .node ⟨none, tg.base⟩ tx (stripF c)
/-- `stripT` over a forest. -/
def stripF : XmlForest → XmlForest
  | .nil => .nil
  | .cons t ts => .cons (stripT t) (stripF ts)
end

/-- Every element of the document (the root included) carries the canonical
fiscal namespace. -/
def fullyNamespaced (t : XmlTree) : Prop :=
  ∀ u ∈ selfDescsT t, u.tag.ns = some nsURI

/-- lxml parser invariant: a parsed element's text is never the empty
string (it is `None` when the element has no character content). -/
def noEmptyTextT (t : XmlTree) : Prop :=
  ∀ u ∈ selfDescsT t, u.text ≠ some ""

instance (t : XmlTree) : Decidable (fullyNamespaced t) := by
  unfold fullyNamespaced; infer_instance

instance (t : XmlTree) : Decidable (noEmptyTextT t) := by
  unfold noEmptyTextT; infer_instance

/-- The ElementPath expressions `parse_xml_base` passes to `find`:
`./ns:base` (`prefixed = true`) or `./base` (`prefixed = false`). -/
structure XPath where
  prefixed : Bool
  base : String
deriving DecidableEq, Repr

/-- ElementPath tag resolution against the prefix map (the `namespaces`
argument, modelled as the optional URI bound to the single prefix `ns`):
a prefixed path with no map raises `SyntaxError` in lxml, modelled as
`none`. -/
def resolveXPath (p : XPath) (namespaces : Option String) : Option QName :=
  if p.prefixed then namespaces.map (fun uri => ⟨some uri, p.base⟩)
  else some ⟨none, p.base⟩

/-- `get_xml_text` (Dashboard.py lines 22-27): return `None` for a `None`
element, else the text of the first matching direct child (`None` when the
path matches nothing or the child has no text).  The `Except.error` case
models `element.find` raising on an unresolvable prefixed path. -/
def get_xml_text (element : Option XmlTree) (xpath : XPath)
    (namespaces : Option String) : Except String (Option String) :=
  match element with
  | none => Except.ok none
  | some e =>
    match resolveXPath xpath namespaces with
    | some q => Except.ok ((findChild q e).bind XmlTree.text)
    | none => Except.error "SyntaxError: prefix not found in prefix map"

/-- Source of one XML file: either malformed markup (`ET.parse` raises
`XMLSyntaxError`) or a well-formed root element. -/
inductive XmlSource where
  | malformed
  | wellFormed (root : XmlTree)

/-- One extracted line-item record (the `item` dict of `parse_xml_base`,
Dashboard.py lines 55-96). -/
structure Item where
  arquivo_origem : String
  data_hora_emissao : Option String
  tipo_documento : String
  codigo_produto : Option String
  nome_produto : Option String
  NCM : Option String
  CFOP : Option String
  codigo_barras : Option String
  quantidade : ℚ
  valor_unitario : ℚ
  valor_total_item : ℚ

/-- The repeated field pattern
`get_xml_text(prod_element, './ns:X', ns) or get_xml_text(prod_element, './X', None)`
(Dashboard.py lines 68-83).  Python's `or` short-circuits, but the second
call is on an unprefixed path and can never raise, so sequencing both calls
is observationally identical. -/
def lookupField (prod_element : XmlTree) (b : String) :
    Except String (Option String) := do
  let a ← get_xml_text (some prod_element) ⟨true, b⟩ (some nsURI)
  let c ← get_xml_text (some prod_element) ⟨false, b⟩ none
  pure (pyOr a c)

/-- The body of the `for det in det_elements` loop (Dashboard.py lines
54-101) for one `det` element: locate `<prod>` with namespace fallback
(skip the item if absent), extract the fields, convert the numeric texts,
compute the line total, and apply the retention check.  Returns `none` for
a skipped or discarded item. -/
def extract_det (arquivo tipo_doc : String) (dh_emi : Option String)
    (det : XmlTree) : Except String (Option Item) :=
  match (match findChild ⟨some nsURI, "prod"⟩ det with
         | some p => some p
         | none => findChild ⟨none, "prod"⟩ det) with
  | none => pure none
  | some prod_element => do
    let codigo_produto ← lookupField prod_element "cProd"
    let nome_produto ← lookupField prod_element "xProd"
    let ncm ← lookupField prod_element "NCM"
    let cfop ← lookupField prod_element "CFOP"
    let codigo_barras ← lookupField prod_element "cEAN"
    let qcom_text ← lookupField prod_element "qCom"
    let vuncom_text ← lookupField prod_element "vUnCom"
    let quantidade := pyFloatOrZero qcom_text
    let valor_unitario := pyFloatOrZero vuncom_text
    pure (if truthy codigo_produto || truthy nome_produto then
            some { arquivo_origem := arquivo
                   data_hora_emissao := dh_emi
                   tipo_documento := tipo_doc
                   codigo_produto := codigo_produto
                   nome_produto := nome_produto
                   NCM := ncm
                   CFOP := cfop
                   codigo_barras := codigo_barras
                   quantidade := quantidade
                   valor_unitario := valor_unitario
                   valor_total_item := quantidade * valor_unitario }
          else none)

/-- The `for det in det_elements: … itens.append(item)` loop: successful
items are appended in document order. -/
def extractLoop (arquivo tipo_doc : String) (dh_emi : Option String) :
    List XmlTree → Except String (List Item)
  | [] => Except.ok []
  | det :: rest => do
    let r ← extract_det arquivo tipo_doc dh_emi det
    let rs ← extractLoop arquivo tipo_doc dh_emi rest
    pure (match r with | some it => it :: rs | none => rs)

/-- The body of `parse_xml_base`'s `try` block on a successfully parsed
root (Dashboard.py lines 34-103): extract `dhEmi` through the `ide`
element (namespace first, bare fallback), collect the `det` elements
(namespace first, bare fallback), and run the item loop. -/
def parse_items (arquivo tipo_doc : String) (root : XmlTree) :
    Except String (List Item) := do
  let dh_emi ←
    match findDesc ⟨some nsURI, "ide"⟩ root with
    | some ide_element => get_xml_text (some ide_element) ⟨true, "dhEmi"⟩ (some nsURI)
    | none =>
      match findDesc ⟨none, "ide"⟩ root with
      | some ide_element => get_xml_text (some ide_element) ⟨false, "dhEmi"⟩ none
      | none => pure none
  let detsNs := findAllDesc ⟨some nsURI, "det"⟩ root
  let det_elements := if detsNs.isEmpty then findAllDesc ⟨none, "det"⟩ root else detsNs
  extractLoop arquivo tipo_doc dh_emi det_elements

/-- `parse_xml_base` (Dashboard.py lines 30-112).  The Python function
receives a file path; here the parsed content (`xml_file`) and the file's
base name (`arquivo`, the value of `os.path.basename(xml_file)`) are
separate arguments.  Malformed markup (`ET.XMLSyntaxError`) and any other
exception both yield `[]`: the outer `try`/`except` converts every failure
into "zero records". -/
def parse_xml_base (xml_file : XmlSource) (arquivo tipo_doc : String) : List Item :=
  match xml_file with
  | .malformed => []
  | .wellFormed root =>
    match parse_items arquivo tipo_doc root with
    | .ok itens => itens
    | .error _ => []

/-- Pure form of a successful `get_xml_text` call: text of the first
matching direct child. -/
def childText (q : QName) (e : XmlTree) : Option String :=
  (findChild q e).bind XmlTree.text

/-- Pure form of `lookupField`: namespaced child text, `or`-fallback to the
bare child text. -/
def fieldValue (p : XmlTree) (b : String) : Option String :=
  pyOr (childText ⟨some nsURI, b⟩ p) (childText ⟨none, b⟩ p)

/-- The `<prod>` lookup with namespace fallback (Dashboard.py lines 61-65). -/
def prodOf (det : XmlTree) : Option XmlTree :=
  match findChild ⟨some nsURI, "prod"⟩ det with
  | some p => some p
  | none => findChild ⟨none, "prod"⟩ det

/-- The record built from a located `<prod>` element (Dashboard.py lines
55-96): `valor_total_item` is recomputed from the two converted fields. -/
def mkItem (arquivo tipo_doc : String) (dh : Option String) (p : XmlTree) : Item :=
  { arquivo_origem := arquivo
    data_hora_emissao := dh
    tipo_documento := tipo_doc
    codigo_produto := fieldValue p "cProd"
    nome_produto := fieldValue p "xProd"
    NCM := fieldValue p "NCM"
    CFOP := fieldValue p "CFOP"
    codigo_barras := fieldValue p "cEAN"
    quantidade := pyFloatOrZero (fieldValue p "qCom")
    valor_unitario := pyFloatOrZero (fieldValue p "vUnCom")
    valor_total_item := pyFloatOrZero (fieldValue p "qCom") * pyFloatOrZero (fieldValue p "vUnCom") }

/-- Pure form of `extract_det`. -/
def extractPure (arquivo tipo_doc : String) (dh : Option String)
    (det : XmlTree) : Option Item :=
  match prodOf det with
  | none => none
  | some p =>
    if truthy (fieldValue p "cProd") || truthy (fieldValue p "xProd") then
      some (mkItem arquivo tipo_doc dh p)
    else none

/-- Pure form of the `dhEmi` extraction (Dashboard.py lines 39-46): when
the namespaced `ide` is found, only its namespaced `dhEmi` child is read;
only when it is absent is the bare `ide`, with its bare `dhEmi` child,
consulted. -/
def dhEmiPure (root : XmlTree) : Option String :=
  match findDesc ⟨some nsURI, "ide"⟩ root with
  | some ide_element => childText ⟨some nsURI, "dhEmi"⟩ ide_element
  | none =>
    match findDesc ⟨none, "ide"⟩ root with
    | some ide_element => childText ⟨none, "dhEmi"⟩ ide_element
    | none => none

/-- The `det` element list with namespace fallback (Dashboard.py lines
50-52). -/
def detsOf (root : XmlTree) : List XmlTree :=
  let detsNs := findAllDesc ⟨some nsURI, "det"⟩ root
  if detsNs.isEmpty then findAllDesc ⟨none, "det"⟩ root else detsNs

/-- Pure form of `parse_items`. -/
def parsePure (arquivo tipo_doc : String) (root : XmlTree) : List Item :=
  ((detsOf root).map (extractPure arquivo tipo_doc (dhEmiPure root))).filterMap id

theorem exceptBind_ok {α β : Type} (v : α) (f : α → Except String β) :
    (Except.ok v >>= f) = f v := rfl

theorem get_xml_text_ns (e : XmlTree) (b : String) :
    get_xml_text (some e) ⟨true, b⟩ (some nsURI) =
      Except.ok (childText ⟨some nsURI, b⟩ e) := rfl

theorem get_xml_text_plain (e : XmlTree) (b : String) (m : Option String) :
    get_xml_text (some e) ⟨false, b⟩ m =
      Except.ok (childText ⟨none, b⟩ e) := rfl

theorem lookupField_eq (p : XmlTree) (b : String) :
    lookupField p b = Except.ok (fieldValue p b) := rfl

theorem extract_det_eq (a t : String) (dh : Option String) (det : XmlTree) :
    extract_det a t dh det = Except.ok (extractPure a t dh det) := by
  unfold extract_det extractPure prodOf
  cases findChild ⟨some nsURI, "prod"⟩ det with
  | some p => rfl
  | none =>
    cases findChild ⟨none, "prod"⟩ det with
    | some p => rfl
    | none => rfl

theorem extractLoop_eq (a t : String) (dh : Option String) (l : List XmlTree) :
    extractLoop a t dh l =
      Except.ok ((l.map (extractPure a t dh)).filterMap id) := by
  induction l with
  | nil => rfl
  | cons det rest ih =>
    simp only [extractLoop, extract_det_eq, ih, exceptBind_ok, List.map_cons,
      List.filterMap_cons]
    cases extractPure a t dh det <;> rfl

theorem parse_items_eq (a t : String) (root : XmlTree) :
    parse_items a t root = Except.ok (parsePure a t root) := by
  unfold parse_items parsePure dhEmiPure
  cases findDesc ⟨some nsURI, "ide"⟩ root with
  | some ide =>
    simp only [get_xml_text_ns, exceptBind_ok, extractLoop_eq, detsOf]
  | none =>
    cases findDesc ⟨none, "ide"⟩ root with
    | some ide =>
      simp only [get_xml_text_plain, exceptBind_ok, extractLoop_eq, detsOf]
    | none =>
      simp only [exceptBind_ok, extractLoop_eq, detsOf]
      rfl

theorem parse_xml_base_wellFormed (root : XmlTree) (a t : String) :
    parse_xml_base (.wellFormed root) a t = parsePure a t root := by
  simp [parse_xml_base, parse_items_eq]

theorem parse_xml_base_malformed (a t : String) :
    parse_xml_base .malformed a t = [] := rfl

/-- One XML file of a directory listing: its base name and its parsed
content. -/
structure XmlFile where
  name : String
  content : XmlSource

/-- The result assembled by `processar_diretorio_xml`: the record rows of
the returned DataFrame plus the loop's bookkeeping (`total_files`,
`processed_count`, `error_files`). -/
structure BatchResult where
  rows : List Item
  total_files : Nat
  processed_count : Nat
  error_files : List String

/-- `pd.to_numeric(col, errors='coerce').fillna(0.0)` applied to one value
of the `quantidade`/`valor_unitario`/`valor_total_item` columns
(Dashboard.py lines 173-178).  Those columns hold Python floats produced by
`parse_xml_base`, so `to_numeric` returns each value unchanged, and in the
rational model no value is NaN, so `fillna` changes nothing: value-wise the
coercion is the identity. -/
def coerceNumeric (v : ℚ) : ℚ := v

/-- The post-processing of the assembled DataFrame restricted to the three
numeric columns.  (The `data_hora_emissao` column is additionally run
through `pd.to_datetime(errors='coerce')`; no claim concerns the parsed
timestamps, so that column is kept as extracted.) -/
def postProcessRow (r : Item) : Item :=
  { r with quantidade := coerceNumeric r.quantidade
           valor_unitario := coerceNumeric r.valor_unitario
           valor_total_item := coerceNumeric r.valor_total_item }

/-- The `for i, filename in enumerate(files)` loop (Dashboard.py lines
150-160): per file, run `parse_xml_base`; a non-empty result is appended to
`all_data` and counted in `processed_count`.  The `except` branch that
appends to `error_files` models an exception raised by `parse_xml_base`;
`parse_xml_base` catches every exception internally and is total here, so
no iteration appends to the failure list. -/
def processLoop (tipo_doc : String) : List XmlFile → List Item × Nat × List String
  | [] => ([], 0, [])
  | f :: rest =>
    let data := parse_xml_base f.content f.name tipo_doc
    let (all_data, processed_count, error_files) := processLoop tipo_doc rest
    (if data.isEmpty then all_data else data ++ all_data,
     (if data.isEmpty then 0 else 1) + processed_count,
     error_files)

/-- `processar_diretorio_xml` (Dashboard.py lines 120-186) restricted to
its data path: the directory-existence and listing guards are external I/O
(their failure returns an empty DataFrame before any record work); `files`
is the list of discovered `.xml` files.  An empty listing and a listing
with no usable item data both return an empty DataFrame; otherwise the
assembled rows are post-processed column-wise. -/
def processar_diretorio_xml (files : List XmlFile) (tipo_doc : String) : BatchResult :=
  if files.isEmpty then ⟨[], 0, 0, []⟩
  else
    let (all_data, processed_count, error_files) := processLoop tipo_doc files
    if all_data.isEmpty then ⟨[], files.length, processed_count, error_files⟩
    else ⟨all_data.map postProcessRow, files.length, processed_count, error_files⟩

/-- One row of the per-product summary DataFrame built by
`criar_resumo_produto`.  The `tipo` argument of the source only renames
columns (`qtd_total_{tipo}`, …); the row fields here carry the unrenamed
aggregate values. -/
structure ResumoRow where
  codigo_produto : String
  nome_produto : Option String
  qtd_total : ℚ
  valor_total : ℚ
  CFOP_predominante : Option String
  NCM : Option String
  valor_unitario_medio : ℚ

/-- Ascending insertion by Python string order (pandas sorts object keys
and tied modes with this order). -/
def insertAscStr (x : String) : List String → List String
  | [] => [x]
  | y :: ys => if pyStrLe x y then x :: y :: ys else y :: insertAscStr x ys

/-- Ascending sort by Python string order. -/
def sortAscStr : List String → List String
  | [] => []
  | x :: xs => insertAscStr x (sortAscStr xs)

/-- `Series.mode()` of pandas on a column of optional strings: null values
are dropped, the values attaining the maximal frequency are collected, and
the result is returned sorted ascending. -/
def seriesMode (xs : List (Option String)) : List String :=
  let vals := xs.filterMap id
  let maxCt := (vals.map (fun v => vals.count v)).foldr max 0
  sortAscStr (vals.dedup.filter (fun v => vals.count v = maxCt))

/-- The `CFOP` aggregate `lambda x: x.mode()[0] if not x.mode().empty else None`
(Dashboard.py line 258). -/
def cfopAgg (xs : List (Option String)) : Option String := (seriesMode xs).head?

/-- The `'first'` aggregate of pandas `groupby`: the first non-null value
of the group, `None` when every value is null. -/
def aggFirst (xs : List (Option String)) : Option String := (xs.filterMap id).head?

/-- The records of one `codigo_produto` group, in original row order. -/
def groupOf (rows : List Item) (code : String) : List Item :=
  rows.filter (fun r => r.codigo_produto = some code)

/-- `df.dropna(subset=['codigo_produto'])` (Dashboard.py line 249). -/
def dropNaCodigo (rows : List Item) : List Item :=
  rows.filter (fun r => r.codigo_produto.isSome)

/-- The distinct product codes of the cleaned rows, sorted ascending as
pandas `groupby(sort=True)` orders its groups. -/
def groupKeys (rows : List Item) : List String :=
  sortAscStr (rows.filterMap (fun r => r.codigo_produto)).dedup

/-- The aggregation dictionary `agg_funcs` (Dashboard.py lines 253-261)
applied to one group. -/
def mkResumoRow (code : String) (grp : List Item) : ResumoRow :=
  { codigo_produto := code
    nome_produto := aggFirst (grp.map (fun r => r.nome_produto))
    qtd_total := (grp.map (fun r => r.quantidade)).sum
    valor_total := (grp.map (fun r => r.valor_total_item)).sum
    CFOP_predominante := cfopAgg (grp.map (fun r => r.CFOP))
    NCM := aggFirst (grp.map (fun r => r.NCM))
    valor_unitario_medio := (grp.map (fun r => r.valor_unitario)).sum / (grp.length : ℚ) }

/-- Descending insertion by `qtd_total`. -/
def insertDescRow (x : ResumoRow) : List ResumoRow → List ResumoRow
  | [] => [x]
  | y :: ys => if y.qtd_total ≤ x.qtd_total then x :: y :: ys else y :: insertDescRow x ys

/-- `df_resumo.sort_values(by='qtd_total_…', ascending=False)` (Dashboard.py
lines 276-278): a descending sort by `qtd_total` (pandas' quicksort leaves
the relative order of tied rows unspecified; this model realizes one
descending order, which every claim about the sort is insensitive to). -/
def sortDescRows : List ResumoRow → List ResumoRow
  | [] => []
  | x :: xs => insertDescRow x (sortDescRows xs)

/-- `criar_resumo_produto` (Dashboard.py lines 244-282): empty input (or a
cleaned frame with no rows) yields an empty summary; otherwise the cleaned
rows are grouped by `codigo_produto`, aggregated per group, and sorted by
total quantity descending.  The `tipo` suffix only renames columns and does
not affect any value. -/
def criar_resumo_produto (df : List Item) (tipo : String) : List ResumoRow :=
  if df.isEmpty then []
  else
    let df_clean := dropNaCodigo df
    if df_clean.isEmpty then []
    else
      sortDescRows ((groupKeys df_clean).map
        (fun code => mkResumoRow code (groupOf df_clean code)))

/-- Modelled from the spec: `dominant_category_code` with "ties broken by
first-encountered value among the tied modes" — the first value in group
order whose frequency is maximal. -/
def firstEncounteredMode (xs : List (Option String)) : Option String :=
  let vals := xs.filterMap id
  let maxCt := (vals.map (fun v => vals.count v)).foldr max 0
  (vals.filter (fun v => vals.count v = maxCt)).head?

theorem natListLt_irrefl : ∀ a : List Nat, natListLt a a = false := by
  intro a
  induction a with
  | nil => rfl
  | cons x xs ih => simp [natListLt, ih]

theorem natListLt_asymm : ∀ a b : List Nat,
    natListLt a b = true → natListLt b a = false := by
  intro a
  induction a with
  | nil =>
    intro b hab
    cases b with
    | nil => simp [natListLt] at hab
    | cons y bs => rfl
  | cons x as ih =>
    intro b hab
    cases b with
    | nil => simp [natListLt] at hab
    | cons y bs =>
      simp only [natListLt] at hab ⊢
      split_ifs at hab ⊢ <;>
        first
        | rfl
        | omega
        | exact ih bs hab
        | simp at hab

theorem natListLt_trans : ∀ a b c : List Nat,
    natListLt a b = true → natListLt b c = true → natListLt a c = true := by
  intro a
  induction a with
  | nil =>
    intro b c hab hbc
    cases b with
    | nil => simp [natListLt] at hab
    | cons y bs =>
      cases c with
      | nil => simp [natListLt] at hbc
      | cons z cs => rfl
  | cons x as ih =>
    intro b c hab hbc
    cases b with
    | nil => simp [natListLt] at hab
    | cons y bs =>
      cases c with
      | nil => simp [natListLt] at hbc
      | cons z cs =>
        simp only [natListLt] at hab hbc ⊢
        split_ifs at hab hbc ⊢ <;>
          first
          | rfl
          | omega
          | exact ih bs cs hab hbc
          | simp at hab
          | simp at hbc

theorem natListLt_conn : ∀ a b : List Nat,
    a ≠ b → natListLt a b = true ∨ natListLt b a = true := by
  intro a
  induction a with
  | nil =>
    intro b hne
    cases b with
    | nil => exact absurd rfl hne
    | cons y bs => left; rfl
  | cons x as ih =>
    intro b hne
    cases b with
    | nil => right; rfl
    | cons y bs =>
      by_cases h1 : x < y
      · left; simp [natListLt, h1]
      · by_cases h2 : y < x
        · right; simp [natListLt, h2]
        · have hxy : x = y := by omega
          subst hxy
          have hne' : as ≠ bs := by
            intro h; exact hne (by rw [h])
          rcases ih bs hne' with h | h
          · left; simp [natListLt, h1, h]
          · right; simp [natListLt, h1, h]

theorem pyStrLe_refl (s : String) : pyStrLe s s = true := by
  simp [pyStrLe, pyStrLt, natListLt_irrefl]

theorem pyStrLe_total (s t : String) : pyStrLe s t = true ∨ pyStrLe t s = true := by
  unfold pyStrLe pyStrLt
  cases hc : natListLt (codepoints t) (codepoints s) with
  | false => left; simp
  | true => right; simp [natListLt_asymm _ _ hc]

theorem pyStrLe_trans {s t u : String} (h1 : pyStrLe s t = true)
    (h2 : pyStrLe t u = true) : pyStrLe s u = true := by
  unfold pyStrLe pyStrLt at h1 h2 ⊢
  simp only [Bool.not_eq_true'] at h1 h2
  simp only [Bool.not_eq_true']
  by_contra hne
  have hne' : natListLt (codepoints u) (codepoints s) = true := by
    cases h : natListLt (codepoints u) (codepoints s) with
    | false => exact absurd h hne
    | true => rfl
  by_cases he : codepoints t = codepoints u
  · rw [he] at h1; rw [h1] at hne'; cases hne'
  · rcases natListLt_conn _ _ he with h3 | h3
    · have := natListLt_trans _ _ _ h3 hne'
      rw [this] at h1; cases h1
    · rw [h3] at h2; cases h2

theorem mem_insertAscStr {x a : String} {l : List String} :
    a ∈ insertAscStr x l ↔ a = x ∨ a ∈ l := by
  induction l with
  | nil => simp [insertAscStr]
  | cons y ys ih =>
    unfold insertAscStr
    by_cases h : pyStrLe x y = true
    · rw [if_pos h]; simp
    · rw [if_neg h]
      simp only [List.mem_cons, ih]
      tauto

theorem mem_sortAscStr {a : String} {l : List String} :
    a ∈ sortAscStr l ↔ a ∈ l := by
  induction l with
  | nil => simp [sortAscStr]
  | cons x xs ih => simp [sortAscStr, mem_insertAscStr, ih]

theorem sorted_insertAscStr {l : List String} (x : String)
    (h : l.Pairwise (fun a b => pyStrLe a b = true)) :
    (insertAscStr x l).Pairwise (fun a b => pyStrLe a b = true) := by
  induction l with
  | nil => simp [insertAscStr]
  | cons y ys ih =>
    rcases List.pairwise_cons.mp h with ⟨hy, hys⟩
    unfold insertAscStr
    by_cases hle : pyStrLe x y = true
    · rw [if_pos hle]
      refine List.Pairwise.cons ?_ h
      intro b hb
      rcases List.mem_cons.mp hb with rfl | hb
      · exact hle
      · exact pyStrLe_trans hle (hy b hb)
    · rw [if_neg hle]
      refine List.Pairwise.cons ?_ (ih hys)
      intro b hb
      rcases mem_insertAscStr.mp hb with rfl | hb
      · rcases pyStrLe_total b y with h1 | h1
        · exact absurd h1 hle
        · exact h1
      · exact hy b hb

theorem sorted_sortAscStr (l : List String) :
    (sortAscStr l).Pairwise (fun a b => pyStrLe a b = true) := by
  induction l with
  | nil => simp [sortAscStr]
  | cons x xs ih => exact sorted_insertAscStr x ih

theorem sortAscStr_eq_nil_iff {l : List String} : sortAscStr l = [] ↔ l = [] := by
  constructor
  · intro h
    cases l with
    | nil => rfl
    | cons x xs =>
      exfalso
      have : x ∈ sortAscStr (x :: xs) := mem_sortAscStr.mpr (by simp)
      rw [h] at this
      simp at this
  · intro h; rw [h]; rfl

theorem mem_insertDescRow {x a : ResumoRow} {l : List ResumoRow} :
    a ∈ insertDescRow x l ↔ a = x ∨ a ∈ l := by
  induction l with
  | nil => simp [insertDescRow]
  | cons y ys ih =>
    unfold insertDescRow
    by_cases h : y.qtd_total ≤ x.qtd_total
    · rw [if_pos h]; simp
    · rw [if_neg h]
      simp only [List.mem_cons, ih]
      tauto

theorem mem_sortDescRows {a : ResumoRow} {l : List ResumoRow} :
    a ∈ sortDescRows l ↔ a ∈ l := by
  induction l with
  | nil => simp [sortDescRows]
  | cons x xs ih => simp [sortDescRows, mem_insertDescRow, ih]

theorem sorted_insertDescRow {l : List ResumoRow} (x : ResumoRow)
    (h : l.Pairwise (fun a b => b.qtd_total ≤ a.qtd_total)) :
    (insertDescRow x l).Pairwise (fun a b => b.qtd_total ≤ a.qtd_total) := by
  induction l with
  | nil => simp [insertDescRow]
  | cons y ys ih =>
    rcases List.pairwise_cons.mp h with ⟨hy, hys⟩
    unfold insertDescRow
    by_cases hle : y.qtd_total ≤ x.qtd_total
    · rw [if_pos hle]
      refine List.Pairwise.cons ?_ h
      intro b hb
      rcases List.mem_cons.mp hb with rfl | hb
      · exact hle
      · exact le_trans (hy b hb) hle
    · rw [if_neg hle]
      refine List.Pairwise.cons ?_ (ih hys)
      intro b hb
      rcases mem_insertDescRow.mp hb with rfl | hb
      · exact le_of_not_le hle
      · exact hy b hb

theorem sorted_sortDescRows (l : List ResumoRow) :
    (sortDescRows l).Pairwise (fun a b => b.qtd_total ≤ a.qtd_total) := by
  induction l with
  | nil => simp [sortDescRows]
  | cons x xs ih => exact sorted_insertDescRow x ih

theorem le_foldr_max {l : List Nat} {a : Nat} (h : a ∈ l) : a ≤ l.foldr max 0 := by
  induction l with
  | nil => simp at h
  | cons x xs ih =>
    rcases List.mem_cons.mp h with rfl | h
    · exact le_max_left _ _
    · exact le_trans (ih h) (le_max_right _ _)

theorem exists_foldr_max {α : Type} (f : α → Nat) :
    ∀ l : List α, l ≠ [] → ∃ a ∈ l, (l.map f).foldr max 0 = f a := by
  intro l
  induction l with
  | nil => intro h; exact absurd rfl h
  | cons x xs ih =>
    intro _
    cases xs with
    | nil => exact ⟨x, by simp, by simp⟩
    | cons y ys =>
      rcases ih (by simp) with ⟨a, ha, heq⟩
      by_cases hc : f a ≤ f x
      · refine ⟨x, by simp, ?_⟩
        rw [List.map_cons, List.foldr_cons, heq]
        exact max_eq_left hc
      · refine ⟨a, List.mem_cons_of_mem _ ha, ?_⟩
        rw [List.map_cons, List.foldr_cons, heq]
        exact max_eq_right (le_of_not_le hc)

/-- The non-null values of an optional-string column (what pandas keeps
after `dropna`). -/
def colVals (xs : List (Option String)) : List String := xs.filterMap id

/-- The maximal frequency attained in the column's non-null values. -/
def colMaxCount (xs : List (Option String)) : Nat :=
  ((colVals xs).map (fun v => (colVals xs).count v)).foldr max 0

theorem seriesMode_def (xs : List (Option String)) :
    seriesMode xs = sortAscStr ((colVals xs).dedup.filter
      (fun v => (colVals xs).count v = colMaxCount xs)) := rfl

theorem cfopAgg_eq_none_iff (xs : List (Option String)) :
    cfopAgg xs = none ↔ colVals xs = [] := by
  unfold cfopAgg
  rw [seriesMode_def]
  constructor
  · intro h
    by_contra hne
    rcases exists_foldr_max (fun v => (colVals xs).count v) (colVals xs) hne with
      ⟨a, ha, heq⟩
    have hmem : a ∈ sortAscStr ((colVals xs).dedup.filter
        (fun v => (colVals xs).count v = colMaxCount xs)) := by
      rw [mem_sortAscStr]
      refine List.mem_filter.mpr ⟨List.mem_dedup.mpr ha, ?_⟩
      simp [colMaxCount, heq]
    rw [List.head?_eq_none_iff] at h
    rw [h] at hmem
    simp at hmem
  · intro h
    rw [h]
    rfl

theorem cfopAgg_spec {xs : List (Option String)} {v : String}
    (h : cfopAgg xs = some v) :
    v ∈ colVals xs ∧ (colVals xs).count v = colMaxCount xs ∧
      (∀ w ∈ colVals xs, (colVals xs).count w ≤ (colVals xs).count v) ∧
      (∀ w ∈ colVals xs,
        (colVals xs).count w = (colVals xs).count v → pyStrLe v w = true) := by
  unfold cfopAgg at h
  rw [seriesMode_def] at h
  cases hL : sortAscStr ((colVals xs).dedup.filter
      (fun v => (colVals xs).count v = colMaxCount xs)) with
  | nil => rw [hL] at h; cases h
  | cons a rest =>
    rw [hL] at h
    have hav : a = v := by simpa using h
    subst hav
    have hmem : a ∈ (colVals xs).dedup.filter
        (fun v => (colVals xs).count v = colMaxCount xs) := by
      rw [← mem_sortAscStr, hL]
      simp
    have hv := List.mem_filter.mp hmem
    have hvmem : a ∈ colVals xs := List.mem_dedup.mp hv.1
    have hvcount : (colVals xs).count a = colMaxCount xs := by
      simpa using hv.2
    refine ⟨hvmem, hvcount, ?_, ?_⟩
    · intro w hw
      rw [hvcount]
      exact le_foldr_max (List.mem_map.mpr ⟨w, hw, rfl⟩)
    · intro w hw hcw
      have hwfilter : w ∈ (colVals xs).dedup.filter
          (fun v => (colVals xs).count v = colMaxCount xs) := by
        refine List.mem_filter.mpr ⟨List.mem_dedup.mpr hw, ?_⟩
        simp [hcw, hvcount]
      have hwsort : w ∈ a :: rest := by
        rw [← hL, mem_sortAscStr]
        exact hwfilter
      rcases List.mem_cons.mp hwsort with rfl | hwrest
      · exact pyStrLe_refl w
      · have hsorted := sorted_sortAscStr ((colVals xs).dedup.filter
          (fun v => (colVals xs).count v = colMaxCount xs))
        rw [hL] at hsorted
        exact (List.pairwise_cons.mp hsorted).1 w hwrest

theorem mem_criar_resumo {df : List Item} {tipo : String} {r : ResumoRow}
    (h : r ∈ criar_resumo_produto df tipo) :
    r = mkResumoRow r.codigo_produto (groupOf (dropNaCodigo df) r.codigo_produto) ∧
      groupOf (dropNaCodigo df) r.codigo_produto ≠ [] := by
  unfold criar_resumo_produto at h
  split_ifs at h with h1
  · simp at h
  · simp only [List.mem_ite_nil_left, List.isEmpty_eq_true] at h
    rcases h with ⟨h2, h⟩
    rw [mem_sortDescRows] at h
    rcases List.mem_map.mp h with ⟨code, hcode, rfl⟩
    have hc : (mkResumoRow code (groupOf (dropNaCodigo df) code)).codigo_produto
        = code := rfl
    rw [hc]
    refine ⟨rfl, ?_⟩
    unfold groupKeys at hcode
    rw [mem_sortAscStr] at hcode
    rcases List.mem_filterMap.mp (List.mem_dedup.mp hcode) with ⟨row, hrow, hrc⟩
    have : row ∈ groupOf (dropNaCodigo df) code := by
      unfold groupOf
      refine List.mem_filter.mpr ⟨hrow, ?_⟩
      simp [hrc]
    exact List.ne_nil_of_mem this

theorem tag_stripT (t : XmlTree) : (stripT t).tag = ⟨none, t.tag.base⟩ := by
  cases t; rfl

theorem text_stripT (t : XmlTree) : (stripT t).text = t.text := by
  cases t; rfl

theorem children_stripT (t : XmlTree) : (stripT t).children = stripF t.children := by
  cases t; rfl

theorem toList_stripF (c : XmlForest) : (stripF c).toList = c.toList.map stripT := by
  cases c with
  | nil => rfl
  | cons t ts => simp [stripF, XmlForest.toList, toList_stripF ts]

mutual
theorem selfDescsT_strip (t : XmlTree) :
    selfDescsT (stripT t) = (selfDescsT t).map stripT := by
  cases t with
  | node tg tx c =>
    simp only [stripT, selfDescsT, List.map_cons, selfDescsF_strip c]
theorem selfDescsF_strip (c : XmlForest) :
    selfDescsF (stripF c) = (selfDescsF c).map stripT := by
  cases c with
  | nil => rfl
  | cons t ts =>
    simp only [stripF, selfDescsF, List.map_append, selfDescsT_strip t,
      selfDescsF_strip ts]
end

mutual
theorem selfDescsT_trans (t : XmlTree) :
    ∀ u ∈ selfDescsT t, ∀ v ∈ selfDescsT u, v ∈ selfDescsT t := by
  cases t with
  | node tg tx c =>
    intro u hu v hv
    simp only [selfDescsT, List.mem_cons] at hu ⊢
    rcases hu with rfl | hu
    · simpa [selfDescsT] using hv
    · exact Or.inr (selfDescsF_trans c u hu v hv)
theorem selfDescsF_trans (c : XmlForest) :
    ∀ u ∈ selfDescsF c, ∀ v ∈ selfDescsT u, v ∈ selfDescsF c := by
  cases c with
  | nil => intro u hu; simp [selfDescsF] at hu
  | cons t ts =>
    intro u hu v hv
    simp only [selfDescsF, List.mem_append] at hu ⊢
    rcases hu with hu | hu
    · exact Or.inl (selfDescsT_trans t u hu v hv)
    · exact Or.inr (selfDescsF_trans ts u hu v hv)
end

theorem self_mem_selfDescsT (t : XmlTree) : t ∈ selfDescsT t := by
  cases t with
  | node tg tx c => simp [selfDescsT]

theorem toList_subset_selfDescsF {c : XmlForest} {u : XmlTree}
    (h : u ∈ c.toList) : u ∈ selfDescsF c := by
  cases c with
  | nil => simp [XmlForest.toList] at h
  | cons t ts =>
    simp only [XmlForest.toList, List.mem_cons] at h
    simp only [selfDescsF, List.mem_append]
    rcases h with rfl | h
    · exact Or.inl (self_mem_selfDescsT u)
    · exact Or.inr (toList_subset_selfDescsF h)

theorem children_mem_selfDescsT {t u : XmlTree} (h : u ∈ t.children.toList) :
    u ∈ selfDescsT t := by
  cases t with
  | node tg tx c =>
    simp only [selfDescsT, List.mem_cons]
    exact Or.inr (toList_subset_selfDescsF h)

theorem descendants_subset_selfDescsT {t u : XmlTree} (h : u ∈ descendants t) :
    u ∈ selfDescsT t := by
  cases t with
  | node tg tx c =>
    simp only [selfDescsT, List.mem_cons]
    exact Or.inr h

theorem fullyNamespaced_of_mem {t u : XmlTree} (ht : fullyNamespaced t)
    (hu : u ∈ selfDescsT t) : fullyNamespaced u := by
  intro v hv
  exact ht v (selfDescsT_trans t u hu v hv)

theorem noEmptyTextT_of_mem {t u : XmlTree} (ht : noEmptyTextT t)
    (hu : u ∈ selfDescsT t) : noEmptyTextT u := by
  intro v hv
  exact ht v (selfDescsT_trans t u hu v hv)

theorem mem_findAllDesc {q : QName} {t u : XmlTree} (h : u ∈ findAllDesc q t) :
    u ∈ selfDescsT t :=
  descendants_subset_selfDescsT (List.mem_filter.mp h).1

theorem mem_findDesc {q : QName} {t u : XmlTree} (h : findDesc q t = some u) :
    u ∈ selfDescsT t := by
  unfold findDesc at h
  cases hl : findAllDesc q t with
  | nil => rw [hl] at h; cases h
  | cons a rest =>
    rw [hl] at h
    have : a = u := by simpa using h
    subst this
    exact mem_findAllDesc (by rw [hl]; simp)

theorem mem_findChild {q : QName} {t u : XmlTree} (h : findChild q t = some u) :
    u ∈ t.children.toList :=
  List.mem_of_find?_eq_some h

theorem tag_of_findChild {q : QName} {t u : XmlTree} (h : findChild q t = some u) :
    u.tag = q := by
  have := List.find?_some h
  simpa using this

theorem filter_map_congr {α β : Type} (f : α → β) (p : β → Bool) (q : α → Bool) :
    ∀ l : List α, (∀ a ∈ l, p (f a) = q a) →
      (l.map f).filter p = (l.filter q).map f := by
  intro l
  induction l with
  | nil => intro _; rfl
  | cons x xs ih =>
    intro hpq
    have ih' := ih (fun a ha => hpq a (List.mem_cons_of_mem _ ha))
    rw [List.map_cons, List.filter_cons, List.filter_cons,
      hpq x (List.mem_cons_self x xs)]
    cases hq : q x <;> simp [hq, ih']

theorem find?_map_congr {α β : Type} (f : α → β) (p : β → Bool) (q : α → Bool) :
    ∀ l : List α, (∀ a ∈ l, p (f a) = q a) →
      (l.map f).find? p = (l.find? q).map f := by
  intro l
  induction l with
  | nil => intro _; rfl
  | cons x xs ih =>
    intro hpq
    have ih' := ih (fun a ha => hpq a (List.mem_cons_of_mem _ ha))
    rw [List.map_cons]
    by_cases hq : q x = true
    · rw [List.find?_cons_of_pos _ (by rw [hpq x (List.mem_cons_self x xs)]; exact hq),
        List.find?_cons_of_pos _ hq]
      rfl
    · rw [List.find?_cons_of_neg _ (by rw [hpq x (List.mem_cons_self x xs)]; exact hq),
        List.find?_cons_of_neg _ hq]
      exact ih'

theorem descendants_strip (t : XmlTree) :
    descendants (stripT t) = (descendants t).map stripT := by
  unfold descendants
  rw [children_stripT, selfDescsF_strip]

theorem findAllDesc_plain_nil {t : XmlTree} (h : fullyNamespaced t) (b : String) :
    findAllDesc ⟨none, b⟩ t = [] := by
  unfold findAllDesc
  rw [List.filter_eq_nil]
  intro u hu
  simp only [decide_eq_true_eq]
  intro hq
  have hns := h u (descendants_subset_selfDescsT hu)
  rw [hq] at hns
  cases hns

theorem findAllDesc_ns_strip_nil (t : XmlTree) (uri b : String) :
    findAllDesc ⟨some uri, b⟩ (stripT t) = [] := by
  unfold findAllDesc
  rw [descendants_strip, List.filter_eq_nil]
  intro u hu
  rcases List.mem_map.mp hu with ⟨v, _, rfl⟩
  rw [tag_stripT v]
  simp

theorem findAllDesc_strip_eq {t : XmlTree} (h : fullyNamespaced t) (b : String) :
    findAllDesc ⟨none, b⟩ (stripT t) =
      (findAllDesc ⟨some nsURI, b⟩ t).map stripT := by
  unfold findAllDesc
  rw [descendants_strip]
  apply filter_map_congr
  intro u hu
  have hns := h u (descendants_subset_selfDescsT hu)
  rw [tag_stripT u]
  rcases hq : u.tag with ⟨ns0, b0⟩
  rw [hq] at hns
  simp only [QName.ns] at hns
  subst hns
  simp [QName.mk.injEq]

theorem findDesc_plain_none {t : XmlTree} (h : fullyNamespaced t) (b : String) :
    findDesc ⟨none, b⟩ t = none := by
  unfold findDesc
  rw [findAllDesc_plain_nil h]
  rfl

theorem findDesc_ns_strip_none (t : XmlTree) (uri b : String) :
    findDesc ⟨some uri, b⟩ (stripT t) = none := by
  unfold findDesc
  rw [findAllDesc_ns_strip_nil]
  rfl

theorem findDesc_strip_eq {t : XmlTree} (h : fullyNamespaced t) (b : String) :
    findDesc ⟨none, b⟩ (stripT t) =
      (findDesc ⟨some nsURI, b⟩ t).map stripT := by
  unfold findDesc
  rw [findAllDesc_strip_eq h]
  cases findAllDesc ⟨some nsURI, b⟩ t <;> rfl

theorem findChild_plain_none {t : XmlTree} (h : fullyNamespaced t) (b : String) :
    findChild ⟨none, b⟩ t = none := by
  unfold findChild
  rw [List.find?_eq_none]
  intro u hu
  simp only [decide_eq_true_eq]
  intro hq
  have hns := h u (children_mem_selfDescsT hu)
  rw [hq] at hns
  cases hns

theorem findChild_ns_strip_none (t : XmlTree) (uri b : String) :
    findChild ⟨some uri, b⟩ (stripT t) = none := by
  unfold findChild
  rw [children_stripT, toList_stripF, List.find?_eq_none]
  intro u hu
  rcases List.mem_map.mp hu with ⟨v, _, rfl⟩
  rw [tag_stripT v]
  simp

theorem findChild_strip_eq {t : XmlTree} (h : fullyNamespaced t) (b : String) :
    findChild ⟨none, b⟩ (stripT t) =
      (findChild ⟨some nsURI, b⟩ t).map stripT := by
  unfold findChild
  rw [children_stripT, toList_stripF]
  apply find?_map_congr
  intro u hu
  have hns := h u (children_mem_selfDescsT hu)
  rw [tag_stripT u]
  rcases hq : u.tag with ⟨ns0, b0⟩
  rw [hq] at hns
  simp only [QName.ns] at hns
  subst hns
  simp [QName.mk.injEq]

theorem childText_strip_eq {p : XmlTree} (h : fullyNamespaced p) (b : String) :
    childText ⟨none, b⟩ (stripT p) = childText ⟨some nsURI, b⟩ p := by
  unfold childText
  rw [findChild_strip_eq h]
  cases findChild ⟨some nsURI, b⟩ p with
  | none => rfl
  | some u => simp [text_stripT]

theorem childText_ns_strip_none (p : XmlTree) (uri b : String) :
    childText ⟨some uri, b⟩ (stripT p) = none := by
  unfold childText
  rw [findChild_ns_strip_none]
  rfl

theorem childText_plain_none {p : XmlTree} (h : fullyNamespaced p) (b : String) :
    childText ⟨none, b⟩ p = none := by
  unfold childText
  rw [findChild_plain_none h]
  rfl

theorem childText_ne_empty {p : XmlTree} (h2 : noEmptyTextT p) (q : QName) :
    childText q p ≠ some "" := by
  unfold childText
  cases hc : findChild q p with
  | none => simp
  | some u =>
    show u.text ≠ some ""
    exact h2 u (children_mem_selfDescsT (mem_findChild hc))

theorem fieldValue_strip_eq {p : XmlTree} (h : fullyNamespaced p)
    (h2 : noEmptyTextT p) (b : String) :
    fieldValue (stripT p) b = fieldValue p b := by
  unfold fieldValue
  rw [childText_ns_strip_none, childText_strip_eq h, childText_plain_none h]
  cases hx : childText ⟨some nsURI, b⟩ p with
  | none => rfl
  | some s =>
    have hs : ¬(s == "") = true := by
      simp only [beq_iff_eq]
      intro heq
      subst heq
      exact childText_ne_empty h2 _ hx
    simp [pyOr, hs]

theorem mem_prodOf {det p : XmlTree} (h : prodOf det = some p) :
    p ∈ selfDescsT det := by
  unfold prodOf at h
  cases hc : findChild ⟨some nsURI, "prod"⟩ det with
  | some q =>
    rw [hc] at h
    have : q = p := by simpa using h
    subst this
    exact children_mem_selfDescsT (mem_findChild hc)
  | none =>
    rw [hc] at h
    exact children_mem_selfDescsT (mem_findChild h)

theorem prodOf_strip {det : XmlTree} (h : fullyNamespaced det) :
    prodOf (stripT det) = (prodOf det).map stripT := by
  simp only [prodOf, findChild_ns_strip_none, findChild_strip_eq h,
    findChild_plain_none h]
  cases findChild ⟨some nsURI, "prod"⟩ det <;> rfl

theorem extractPure_strip {det : XmlTree} (h : fullyNamespaced det)
    (h2 : noEmptyTextT det) (a t : String) (dh : Option String) :
    extractPure a t dh (stripT det) = extractPure a t dh det := by
  unfold extractPure
  rw [prodOf_strip h]
  cases hp : prodOf det with
  | none => rfl
  | some p =>
    have hpmem : p ∈ selfDescsT det := mem_prodOf hp
    have hpf : fullyNamespaced p := fullyNamespaced_of_mem h hpmem
    have hpe : noEmptyTextT p := noEmptyTextT_of_mem h2 hpmem
    simp only [show Option.map stripT (some p) = some (stripT p) from rfl]
    simp only [mkItem, fieldValue_strip_eq hpf hpe]

theorem dhEmiPure_strip {root : XmlTree} (h : fullyNamespaced root) :
    dhEmiPure (stripT root) = dhEmiPure root := by
  simp only [dhEmiPure, findDesc_ns_strip_none, findDesc_strip_eq h,
    findDesc_plain_none h]
  cases hi : findDesc ⟨some nsURI, "ide"⟩ root with
  | none => rfl
  | some ide =>
    simp only [Option.map_some]
    have hif : fullyNamespaced ide := fullyNamespaced_of_mem h (mem_findDesc hi)
    exact childText_strip_eq hif "dhEmi"

theorem detsOf_strip {root : XmlTree} (h : fullyNamespaced root) :
    detsOf (stripT root) = (detsOf root).map stripT := by
  simp only [detsOf, findAllDesc_ns_strip_nil, findAllDesc_strip_eq h,
    findAllDesc_plain_nil h]
  cases hL : findAllDesc ⟨some nsURI, "det"⟩ root with
  | nil => simp
  | cons x xs => simp

theorem mem_detsOf {root det : XmlTree} (h : det ∈ detsOf root) :
    det ∈ selfDescsT root := by
  simp only [detsOf] at h
  split_ifs at h <;> exact mem_findAllDesc h

theorem parsePure_strip {root : XmlTree} (h : fullyNamespaced root)
    (h2 : noEmptyTextT root) (a t : String) :
    parsePure a t (stripT root) = parsePure a t root := by
  unfold parsePure
  rw [detsOf_strip h, dhEmiPure_strip h, List.map_map]
  congr 1
  apply List.map_congr_left
  intro det hdet
  have hdm : det ∈ selfDescsT root := mem_detsOf hdet
  exact extractPure_strip (fullyNamespaced_of_mem h hdm)
    (noEmptyTextT_of_mem h2 hdm) a t (dhEmiPure root)

theorem processLoop_spec (tipo : String) : ∀ files : List XmlFile,
    processLoop tipo files =
      (files.bind (fun f => parse_xml_base f.content f.name tipo),
       (files.filter (fun f => !(parse_xml_base f.content f.name tipo).isEmpty)).length,
       ([] : List String)) := by
  intro files
  induction files with
  | nil => rfl
  | cons f rest ih =>
    simp only [processLoop, ih, List.cons_bind, List.filter_cons]
    cases hd : (parse_xml_base f.content f.name tipo).isEmpty with
    | true =>
      have : parse_xml_base f.content f.name tipo = [] := by
        simpa using hd
      simp [this]
    | false =>
      simp [hd, Nat.add_comm]

theorem processar_error_files (files : List XmlFile) (tipo : String) :
    (processar_diretorio_xml files tipo).error_files = [] := by
  unfold processar_diretorio_xml
  split_ifs with h1
  · rfl
  · simp only [processLoop_spec]
    split_ifs <;> rfl

theorem processar_rows (files : List XmlFile) (tipo : String) :
    (processar_diretorio_xml files tipo).rows =
      (files.bind (fun f => parse_xml_base f.content f.name tipo)).map
        postProcessRow := by
  unfold processar_diretorio_xml
  split_ifs with h1
  · rw [List.isEmpty_iff] at h1
    rw [h1]
    rfl
  · rw [processLoop_spec]
    by_cases h2 : (files.bind (fun f => parse_xml_base f.content f.name tipo)).isEmpty
    · rw [List.isEmpty_iff] at h2
      simp [h2]
    · simp only [h2]
      rfl

theorem processar_count (files : List XmlFile) (tipo : String) :
    (processar_diretorio_xml files tipo).processed_count =
      (files.filter (fun f => !(parse_xml_base f.content f.name tipo).isEmpty)).length := by
  unfold processar_diretorio_xml
  split_ifs with h1
  · rw [List.isEmpty_iff] at h1
    rw [h1]
    rfl
  · simp only [processLoop_spec]
    split_ifs <;> rfl

theorem mem_parsePure {a t : String} {root : XmlTree} {r : Item}
    (h : r ∈ parsePure a t root) :
    ∃ det ∈ detsOf root, extractPure a t (dhEmiPure root) det = some r := by
  unfold parsePure at h
  rw [List.mem_filterMap] at h
  rcases h with ⟨o, ho, hid⟩
  rcases List.mem_map.mp ho with ⟨det, hdet, rfl⟩
  exact ⟨det, hdet, by simpa using hid⟩

theorem extractPure_some {a t : String} {dh : Option String} {det : XmlTree}
    {r : Item} (h : extractPure a t dh det = some r) :
    ∃ p, prodOf det = some p ∧ r = mkItem a t dh p ∧
      (truthy (fieldValue p "cProd") || truthy (fieldValue p "xProd")) = true := by
  unfold extractPure at h
  cases hp : prodOf det with
  | none =>
    rw [hp] at h
    have h' : (none : Option Item) = some r := h
    cases h'
  | some p =>
    rw [hp] at h
    have h' : (if (truthy (fieldValue p "cProd") || truthy (fieldValue p "xProd")) = true
        then some (mkItem a t dh p) else none) = some r := h
    by_cases hc : (truthy (fieldValue p "cProd") || truthy (fieldValue p "xProd")) = true
    · rw [if_pos hc] at h'
      exact ⟨p, rfl, by simpa using h'.symm, hc⟩
    · rw [if_neg hc] at h'
      cases h'

theorem childText_some {p : XmlTree} {q : QName} {s : String}
    (h : childText q p = some s) : ∃ u ∈ p.children.toList, u.text = some s := by
  unfold childText at h
  cases hc : findChild q p with
  | none => rw [hc] at h; cases h
  | some u => rw [hc] at h; exact ⟨u, mem_findChild hc, h⟩

theorem fieldValue_some {p : XmlTree} {b s : String}
    (h : fieldValue p b = some s) : ∃ u ∈ p.children.toList, u.text = some s := by
  unfold fieldValue pyOr at h
  cases h1 : childText ⟨some nsURI, b⟩ p with
  | none =>
    rw [h1] at h
    exact childText_some h
  | some s0 =>
    rw [h1] at h
    have h' : (if (s0 == "") = true then childText ⟨none, b⟩ p else some s0)
        = some s := h
    by_cases he : (s0 == "") = true
    · rw [if_pos he] at h'
      exact childText_some h'
    · rw [if_neg he] at h'
      have : s0 = s := by simpa using h'
      subst this
      exact childText_some h1

theorem pyFloatOrZero_nonneg {t : Option String}
    (h : ∀ s q, t = some s → parseFloat s = some q → 0 ≤ q) :
    0 ≤ pyFloatOrZero t := by
  unfold pyFloatOrZero
  cases t with
  | none => exact le_refl 0
  | some s =>
    show 0 ≤ (if (s == "") = true then (0 : ℚ) else (parseFloat s).getD 0)
    by_cases he : (s == "") = true
    · rw [if_pos he]
    · rw [if_neg he]
      cases hp : parseFloat s with
      | none => simp
      | some q => simpa using h s q rfl hp

theorem parsePure_dh {a t : String} {root : XmlTree} {r : Item}
    (hr : r ∈ parsePure a t root) : r.data_hora_emissao = dhEmiPure root := by
  rcases mem_parsePure hr with ⟨det, _, hex⟩
  rcases extractPure_some hex with ⟨p, _, rfl, _⟩
  rfl

theorem truthy_ne_none {x : Option String} (h : truthy x = true) : x ≠ none := by
  intro hn
  subst hn
  cases h

/-- Build a forest from a list of elements. -/
def XmlForest.ofList : List XmlTree → XmlForest
  | [] => .nil
  | t :: ts => .cons t (XmlForest.ofList ts)

/-- A well-formed, fully namespaced sample invoice: one `ide` carrying a
`dhEmi` timestamp and one `det` whose `prod` has code `P1`, quantity `3`
and unit price `10`. -/
def sampleProd : XmlTree :=
  .node ⟨some nsURI, "prod"⟩ none (XmlForest.ofList
    [.node ⟨some nsURI, "cProd"⟩ (some "P1") .nil,
     .node ⟨some nsURI, "qCom"⟩ (some "3") .nil,
     .node ⟨some nsURI, "vUnCom"⟩ (some "10") .nil])

/-- The `ide` element of `sampleDoc`. -/
def sampleIde : XmlTree :=
  .node ⟨some nsURI, "ide"⟩ none (XmlForest.ofList
    [.node ⟨some nsURI, "dhEmi"⟩ (some "2024-05-01T10:00:00") .nil])

/-- The root of the sample invoice. -/
def sampleDoc : XmlTree :=
  .node ⟨some nsURI, "NFe"⟩ none (XmlForest.ofList
    [sampleIde,
     .node ⟨some nsURI, "det"⟩ none (XmlForest.ofList [sampleProd])])

/-- The single record extracted from `sampleDoc`. -/
def sampleItem : Item := mkItem "a.xml" "Venda" (dhEmiPure sampleDoc) sampleProd

theorem sample_parse :
    parse_xml_base (.wellFormed sampleDoc) "a.xml" "Venda" = [sampleItem] := rfl

theorem sample_mem :
    sampleItem ∈ parse_xml_base (.wellFormed sampleDoc) "a.xml" "Venda" := by
  rw [sample_parse]
  exact List.mem_singleton.mpr rfl

/-- C3: for every well-formed document all of whose elements carry the
canonical fiscal namespace (and whose texts are genuine lxml texts, i.e.
never the empty string), `parse_xml_base` produces exactly the same record
list for the document with every namespace qualifier stripped as for the
document itself — the namespace-then-bare fallback is exact. -/
theorem C3_namespace_equivalence (root : XmlTree) (a t : String)
    (h1 : fullyNamespaced root) (h2 : noEmptyTextT root) :
    parse_xml_base (.wellFormed (stripT root)) a t =
      parse_xml_base (.wellFormed root) a t := by
  rw [parse_xml_base_wellFormed, parse_xml_base_wellFormed]
  exact parsePure_strip h1 h2 a t

theorem C3_witness :
    fullyNamespaced sampleDoc ∧ noEmptyTextT sampleDoc ∧
    parse_xml_base (.wellFormed (stripT sampleDoc)) "a.xml" "Venda" =
      parse_xml_base (.wellFormed sampleDoc) "a.xml" "Venda" :=
  ⟨by decide, by decide,
    C3_namespace_equivalence sampleDoc "a.xml" "Venda" (by decide) (by decide)⟩

/-- C5: a record with both `codigo_produto` and `nome_produto` null is
never emitted by `parse_xml_base`: every emitted record has at least one
of the two identifiers non-null (the retention check of Dashboard.py
lines 98-101). -/
theorem C5_retention (src : XmlSource) (a t : String) :
    ∀ r ∈ parse_xml_base src a t,
      r.codigo_produto ≠ none ∨ r.nome_produto ≠ none := by
  intro r hr
  cases src with
  | malformed => simp [parse_xml_base] at hr
  | wellFormed root =>
    rw [parse_xml_base_wellFormed] at hr
    rcases mem_parsePure hr with ⟨det, _, hex⟩
    rcases extractPure_some hex with ⟨p, _, rfl, hc⟩
    rcases Bool.or_eq_true_iff.mp hc with h | h
    · exact Or.inl (truthy_ne_none h)
    · exact Or.inr (truthy_ne_none h)

theorem C5_witness :
    sampleItem ∈ parse_xml_base (.wellFormed sampleDoc) "a.xml" "Venda" ∧
    (sampleItem.codigo_produto ≠ none ∨ sampleItem.nome_produto ≠ none) :=
  ⟨sample_mem,
    C5_retention (.wellFormed sampleDoc) "a.xml" "Venda" sampleItem sample_mem⟩

/-- C6: `valor_total_item` equals `quantidade * valor_unitario` for every
record at the moment `parse_xml_base` creates it, and the equality is
preserved by `processar_diretorio_xml`'s numeric post-processing of the
three columns. -/
theorem C6_line_total :
    (∀ (src : XmlSource) (a t : String), ∀ r ∈ parse_xml_base src a t,
      r.valor_total_item = r.quantidade * r.valor_unitario) ∧
    (∀ (files : List XmlFile) (tipo : String),
      ∀ r ∈ (processar_diretorio_xml files tipo).rows,
      r.valor_total_item = r.quantidade * r.valor_unitario) := by
  have h1 : ∀ (src : XmlSource) (a t : String), ∀ r ∈ parse_xml_base src a t,
      r.valor_total_item = r.quantidade * r.valor_unitario := by
    intro src a t r hr
    cases src with
    | malformed => simp [parse_xml_base] at hr
    | wellFormed root =>
      rw [parse_xml_base_wellFormed] at hr
      rcases mem_parsePure hr with ⟨det, _, hex⟩
      rcases extractPure_some hex with ⟨p, _, rfl, _⟩
      rfl
  refine ⟨h1, ?_⟩
  intro files tipo r hr
  rw [processar_rows] at hr
  rcases List.mem_map.mp hr with ⟨r0, hr0, rfl⟩
  rcases List.mem_bind.mp hr0 with ⟨f, hf, hr0p⟩
  have := h1 f.content f.name tipo r0 hr0p
  simpa [postProcessRow, coerceNumeric] using this

theorem C6_witness :
    sampleItem ∈ parse_xml_base (.wellFormed sampleDoc) "a.xml" "Venda" ∧
    sampleItem.valor_total_item = sampleItem.quantidade * sampleItem.valor_unitario :=
  ⟨sample_mem,
    C6_line_total.1 (.wellFormed sampleDoc) "a.xml" "Venda" sampleItem sample_mem⟩

/-- C7: the summary rows produced by `criar_resumo_produto` are ordered by
total quantity descending: the mapped `qtd_total` column is pairwise
non-increasing. -/
theorem C7_sorted_desc (df : List Item) (tipo : String) :
    ((criar_resumo_produto df tipo).map (fun r => r.qtd_total)).Pairwise
      (fun a b => b ≤ a) := by
  by_cases h1 : df.isEmpty
  · simp [criar_resumo_produto, h1]
  · by_cases h2 : (dropNaCodigo df).isEmpty
    · simp [criar_resumo_produto, h1, h2]
    · have he : criar_resumo_produto df tipo =
          sortDescRows ((groupKeys (dropNaCodigo df)).map
            (fun code => mkResumoRow code (groupOf (dropNaCodigo df) code))) := by
        simp [criar_resumo_produto, h1, h2]
      rw [he]
      exact List.Pairwise.map _ (fun a b hab => hab) (sorted_sortDescRows _)

/-- The `prod` of the C8 scenario: quantity text `"abc"`, unit-price text
`"5.0"` (built with bare tags; the extractor reads them via its fallback). -/
def c8prod : XmlTree :=
  .node ⟨none, "prod"⟩ none (XmlForest.ofList
    [.node ⟨none, "cProd"⟩ (some "P1") .nil,
     .node ⟨none, "qCom"⟩ (some "abc") .nil,
     .node ⟨none, "vUnCom"⟩ (some "5.0") .nil])

/-- A document containing only the C8 scenario item. -/
def c8doc : XmlTree :=
  .node ⟨none, "NFe"⟩ none (XmlForest.ofList
    [.node ⟨none, "det"⟩ none (XmlForest.ofList [c8prod])])

/-- The record the extractor produces from `c8doc`. -/
def c8item : Item := mkItem "a.xml" "Venda" none c8prod

/-- C8: numeric conversion never raises: a text that `float` cannot parse
degrades the field to `0.0` (and a missing text likewise); in particular a
`qCom` of `"abc"` with a `vUnCom` of `"5.0"` yields `quantidade = 0` and
`valor_total_item = 0`. -/
theorem C8_conversion_never_raises :
    (∀ s : String, parseFloat s = none → pyFloatOrZero (some s) = 0) ∧
    pyFloatOrZero none = 0 ∧
    fieldValue c8prod "qCom" = some "abc" ∧
    fieldValue c8prod "vUnCom" = some "5.0" ∧
    (parse_xml_base (.wellFormed c8doc) "a.xml" "Venda").map
      (fun r => (r.quantidade, r.valor_total_item)) = [((0 : ℚ), (0 : ℚ))] := by
  refine ⟨?_, rfl, by decide, by decide, ?_⟩
  · intro s hs
    show (if (s == "") = true then (0 : ℚ) else (parseFloat s).getD 0) = 0
    by_cases he : (s == "") = true
    · rw [if_pos he]
    · rw [if_neg he, hs]
      rfl
  · have hp : parse_xml_base (.wellFormed c8doc) "a.xml" "Venda" = [c8item] := rfl
    rw [hp]
    have hq : c8item.quantidade = 0 := by
      rw [show c8item.quantidade = pyFloatOrZero (fieldValue c8prod "qCom") from rfl,
        show fieldValue c8prod "qCom" = some "abc" from by decide]
      simp +decide [pyFloatOrZero, parseFloat, parseFloatCore, readDigitsAux,
        parseExpPart, pyStrip, dropLeadingWs]
    have ht : c8item.valor_total_item = 0 := by
      rw [show c8item.valor_total_item =
          c8item.quantidade * pyFloatOrZero (fieldValue c8prod "vUnCom") from rfl,
        hq, zero_mul]
    simp [hq, ht]

theorem C8_witness :
    parseFloat "abc" = none ∧ pyFloatOrZero (some "abc") = 0 :=
  ⟨by decide, C8_conversion_never_raises.1 "abc" (by decide)⟩

/-- C10: `get_xml_text` is total on every call shape the extractor uses: a
`None` element yields `None` for every path and namespace map (even an
unresolvable one); an unprefixed path resolves under every namespace map
(including `None`); and on every resolvable path the function returns
`Except.ok` of the found child's text (or `None` when nothing matches) —
it never raises. -/
theorem C10_get_xml_text_total (e : Option XmlTree) (p : XPath)
    (m : Option String) :
    get_xml_text none p m = Except.ok none ∧
    (p.prefixed = false → ∃ q, resolveXPath p m = some q) ∧
    (∀ q, resolveXPath p m = some q →
      get_xml_text e p m =
        Except.ok (e.bind (fun el => (findChild q el).bind XmlTree.text))) := by
  refine ⟨rfl, ?_, ?_⟩
  · intro hp
    exact ⟨⟨none, p.base⟩, by simp [resolveXPath, hp]⟩
  · intro q hq
    cases e with
    | none => rfl
    | some el => simp [get_xml_text, hq]

theorem C10_witness :
    resolveXPath ⟨false, "dhEmi"⟩ none = some ⟨none, "dhEmi"⟩ ∧
    get_xml_text (some sampleIde) ⟨false, "dhEmi"⟩ none =
      Except.ok ((some sampleIde).bind
        (fun el => (findChild ⟨none, "dhEmi"⟩ el).bind XmlTree.text)) :=
  ⟨rfl, (C10_get_xml_text_total (some sampleIde) ⟨false, "dhEmi"⟩ none).2.2
    ⟨none, "dhEmi"⟩ rfl⟩

/-- Two records for the same product `P1` whose `CFOP`s `"5405"` and
`"5102"` are tied modes; `"5405"` is first-encountered. -/
def c1item1 : Item :=
  { arquivo_origem := "a.xml", data_hora_emissao := none,
    tipo_documento := "Venda", codigo_produto := some "P1",
    nome_produto := some "X", NCM := none, CFOP := some "5405",
    codigo_barras := none, quantidade := 1, valor_unitario := 1,
    valor_total_item := 1 }

/-- The second record of the C1 tie, `CFOP = "5102"`. -/
def c1item2 : Item := { c1item1 with CFOP := some "5102" }

/-- The two-record input of the C1 tie. -/
def c1df : List Item := [c1item1, c1item2]

/-- The single summary row produced from `c1df`. -/
def c1row : ResumoRow := mkResumoRow "P1" (groupOf (dropNaCodigo c1df) "P1")

/-- C1, counterexample: with the tied modes `"5405"` (first-encountered)
and `"5102"`, `criar_resumo_produto` reports `"5102"` — pandas
`Series.mode()` returns the tied modes sorted ascending and `[0]` picks the
least, not the first-encountered value, so the claim's tie-break is wrong
on the code. -/
theorem C1_counterexample :
    (criar_resumo_produto c1df "vendida").map (fun r => r.CFOP_predominante) =
      [some "5102"] ∧
    firstEncounteredMode ((groupOf (dropNaCodigo c1df) "P1").map
      (fun r => r.CFOP)) = some "5405" ∧
    (some "5102" : Option String) ≠ some "5405" := by
  refine ⟨by decide, by decide, by decide⟩

/-- C1, as amended: `CFOP_predominante` of every summary row is null iff
the group has no non-null `CFOP`; otherwise it is a value of maximal
frequency in the group, and among the tied maximal-frequency values it is
the least in Python string order (the pandas `mode()` ordering) — not the
first-encountered one. -/
theorem C1_dominant_mode (df : List Item) (tipo : String) (r : ResumoRow)
    (h : r ∈ criar_resumo_produto df tipo) :
    (r.CFOP_predominante = none ↔
      colVals ((groupOf (dropNaCodigo df) r.codigo_produto).map
        (fun x => x.CFOP)) = []) ∧
    (∀ v, r.CFOP_predominante = some v →
      v ∈ colVals ((groupOf (dropNaCodigo df) r.codigo_produto).map
        (fun x => x.CFOP)) ∧
      (∀ w ∈ colVals ((groupOf (dropNaCodigo df) r.codigo_produto).map
          (fun x => x.CFOP)),
        (colVals ((groupOf (dropNaCodigo df) r.codigo_produto).map
          (fun x => x.CFOP))).count w ≤
        (colVals ((groupOf (dropNaCodigo df) r.codigo_produto).map
          (fun x => x.CFOP))).count v) ∧
      (∀ w ∈ colVals ((groupOf (dropNaCodigo df) r.codigo_produto).map
          (fun x => x.CFOP)),
        (colVals ((groupOf (dropNaCodigo df) r.codigo_produto).map
          (fun x => x.CFOP))).count w =
        (colVals ((groupOf (dropNaCodigo df) r.codigo_produto).map
          (fun x => x.CFOP))).count v → pyStrLe v w = true)) := by
  rcases mem_criar_resumo h with ⟨heq, _⟩
  have h1 : r.CFOP_predominante =
      cfopAgg ((groupOf (dropNaCodigo df) r.codigo_produto).map
        (fun x => x.CFOP)) := by
    conv_lhs => rw [heq]
    rfl
  rw [h1]
  constructor
  · exact cfopAgg_eq_none_iff _
  · intro v hv
    rcases cfopAgg_spec hv with ⟨h2, _, h4, h5⟩
    exact ⟨h2, h4, h5⟩

theorem C1_witness :
    c1row ∈ criar_resumo_produto c1df "vendida" ∧
    ((c1row.CFOP_predominante = none ↔
      colVals ((groupOf (dropNaCodigo c1df) c1row.codigo_produto).map
        (fun x => x.CFOP)) = []) ∧
    (∀ v, c1row.CFOP_predominante = some v →
      v ∈ colVals ((groupOf (dropNaCodigo c1df) c1row.codigo_produto).map
        (fun x => x.CFOP)) ∧
      (∀ w ∈ colVals ((groupOf (dropNaCodigo c1df) c1row.codigo_produto).map
          (fun x => x.CFOP)),
        (colVals ((groupOf (dropNaCodigo c1df) c1row.codigo_produto).map
          (fun x => x.CFOP))).count w ≤
        (colVals ((groupOf (dropNaCodigo c1df) c1row.codigo_produto).map
          (fun x => x.CFOP))).count v) ∧
      (∀ w ∈ colVals ((groupOf (dropNaCodigo c1df) c1row.codigo_produto).map
          (fun x => x.CFOP)),
        (colVals ((groupOf (dropNaCodigo c1df) c1row.codigo_produto).map
          (fun x => x.CFOP))).count w =
        (colVals ((groupOf (dropNaCodigo c1df) c1row.codigo_produto).map
          (fun x => x.CFOP))).count v → pyStrLe v w = true))) := by
  have hm : c1row ∈ criar_resumo_produto c1df "vendida" := by
    rw [show criar_resumo_produto c1df "vendida" = [c1row] from rfl]
    exact List.mem_singleton.mpr rfl
  exact ⟨hm, C1_dominant_mode c1df "vendida" c1row hm⟩

/-- C2, counterexample: a batch whose single file is malformed yields zero
records for it, but its identifier is **not** recorded in `error_files` —
the failure list stays empty because `parse_xml_base` swallows the parse
failure internally and returns `[]` instead of raising. -/
theorem C2_counterexample :
    parse_xml_base .malformed "bad.xml" "Venda" = [] ∧
    (processar_diretorio_xml [⟨"bad.xml", .malformed⟩] "Venda").error_files = [] ∧
    "bad.xml" ∉ (processar_diretorio_xml [⟨"bad.xml", .malformed⟩] "Venda").error_files := by
  refine ⟨rfl, rfl, ?_⟩
  rw [processar_error_files]
  simp

/-- C2, as amended: a malformed document contributes zero records, the
remaining documents are still processed and the failure never reaches the
caller; but the document's identifier is **not** recorded — the batch
failure list is always empty (the `except` branch that fills it is
unreachable because `parse_xml_base` catches internally), and failed or
empty documents are visible only through `processed_count`, which counts
exactly the files whose parse produced at least one record. -/
theorem C2_batch_isolation (files : List XmlFile) (tipo : String) :
    (∀ a t : String, parse_xml_base .malformed a t = []) ∧
    (processar_diretorio_xml files tipo).error_files = [] ∧
    (processar_diretorio_xml files tipo).rows =
      (files.bind (fun f => parse_xml_base f.content f.name tipo)).map
        postProcessRow ∧
    (processar_diretorio_xml files tipo).processed_count =
      (files.filter
        (fun f => !(parse_xml_base f.content f.name tipo).isEmpty)).length :=
  ⟨fun _ _ => rfl, processar_error_files files tipo, processar_rows files tipo,
    processar_count files tipo⟩

/-- The `prod` of the C4 counterexample: quantity text `"-1"`. -/
def c4prod : XmlTree :=
  .node ⟨none, "prod"⟩ none (XmlForest.ofList
    [.node ⟨none, "cProd"⟩ (some "P1") .nil,
     .node ⟨none, "qCom"⟩ (some "-1") .nil,
     .node ⟨none, "vUnCom"⟩ (some "10") .nil])

/-- A document whose only item carries the negative quantity text. -/
def c4doc : XmlTree :=
  .node ⟨none, "NFe"⟩ none (XmlForest.ofList
    [.node ⟨none, "det"⟩ none (XmlForest.ofList [c4prod])])

/-- C4, counterexample: a quantity text of `"-1"` parses successfully, so
the emitted record has `quantidade = -1 < 0`: the extractor does not
enforce non-negativity on numeric text that parses to a negative value. -/
theorem C4_counterexample :
    (parse_xml_base (.wellFormed c4doc) "a.xml" "Venda").map
      (fun r => r.quantidade) = [(-1 : ℚ)] ∧
    ¬(0 : ℚ) ≤ (-1 : ℚ) := by
  constructor
  · have hp : parse_xml_base (.wellFormed c4doc) "a.xml" "Venda" =
        [mkItem "a.xml" "Venda" none c4prod] := rfl
    rw [hp]
    have hq : (mkItem "a.xml" "Venda" none c4prod).quantidade = -1 := by
      rw [show (mkItem "a.xml" "Venda" none c4prod).quantidade =
          pyFloatOrZero (fieldValue c4prod "qCom") from rfl,
        show fieldValue c4prod "qCom" = some "-1" from by decide]
      simp +decide [pyFloatOrZero, parseFloat, parseFloatCore, readDigitsAux,
        parseExpPart, pyStrip, dropLeadingWs]
    simp [hq]
  · norm_num

/-- C4, as amended: `quantidade` and `valor_unitario` are non-negative
provided every text of the document that parses as a float parses to a
non-negative value; a missing or unparsable text defaults to `0`, but a
text denoting a negative number is taken as-is and yields a negative
field. -/
theorem C4_nonneg_under_nonneg_texts (root : XmlTree) (a t : String)
    (h : ∀ u ∈ selfDescsT root, ∀ s q, u.text = some s →
      parseFloat s = some q → 0 ≤ q) :
    ∀ r ∈ parse_xml_base (.wellFormed root) a t,
      0 ≤ r.quantidade ∧ 0 ≤ r.valor_unitario := by
  intro r hr
  rw [parse_xml_base_wellFormed] at hr
  rcases mem_parsePure hr with ⟨det, hdet, hex⟩
  rcases extractPure_some hex with ⟨p, hp, rfl, _⟩
  have hdetm : det ∈ selfDescsT root := mem_detsOf hdet
  have hpm : p ∈ selfDescsT root :=
    selfDescsT_trans root det hdetm p (mem_prodOf hp)
  constructor <;>
    refine pyFloatOrZero_nonneg (fun s q hs hq => ?_) <;>
    · rcases fieldValue_some hs with ⟨u, hu, hut⟩
      have hum : u ∈ selfDescsT root :=
        selfDescsT_trans root p hpm u (children_mem_selfDescsT hu)
      exact h u hum s q hut hq

/-- The `prod` of the C4 witness document: no numeric texts at all. -/
def c4wprod : XmlTree :=
  .node ⟨none, "prod"⟩ none (XmlForest.ofList
    [.node ⟨none, "cProd"⟩ (some "P1") .nil])

/-- The C4 witness document. -/
def c4wdoc : XmlTree :=
  .node ⟨none, "NFe"⟩ none (XmlForest.ofList
    [.node ⟨none, "det"⟩ none (XmlForest.ofList [c4wprod])])

/-- The record extracted from `c4wdoc`. -/
def c4witem : Item := mkItem "a.xml" "Venda" none c4wprod

theorem C4_witness :
    (∀ u ∈ selfDescsT c4wdoc, ∀ s q, u.text = some s →
      parseFloat s = some q → 0 ≤ q) ∧
    c4witem ∈ parse_xml_base (.wellFormed c4wdoc) "a.xml" "Venda" ∧
    0 ≤ c4witem.quantidade ∧ 0 ≤ c4witem.valor_unitario := by
  have hh : ∀ u ∈ selfDescsT c4wdoc, ∀ s q, u.text = some s →
      parseFloat s = some q → 0 ≤ q := by
    intro u hu s q hs hq
    have hl : selfDescsT c4wdoc =
        [c4wdoc, .node ⟨none, "det"⟩ none (XmlForest.ofList [c4wprod]),
         c4wprod, .node ⟨none, "cProd"⟩ (some "P1") .nil] := rfl
    rw [hl] at hu
    simp only [List.mem_cons, List.not_mem_nil, or_false] at hu
    rcases hu with rfl | rfl | rfl | rfl
    · simp [c4wdoc, XmlTree.text] at hs
    · simp [XmlTree.text] at hs
    · simp [c4wprod, XmlTree.text] at hs
    · have hs' : s = "P1" := by simpa [XmlTree.text] using hs.symm
      subst hs'
      rw [show parseFloat "P1" = none from by decide] at hq
      cases hq
  have hm : c4witem ∈ parse_xml_base (.wellFormed c4wdoc) "a.xml" "Venda" := by
    rw [show parse_xml_base (.wellFormed c4wdoc) "a.xml" "Venda" = [c4witem]
      from rfl]
    exact List.mem_singleton.mpr rfl
  exact ⟨hh, hm, C4_nonneg_under_nonneg_texts c4wdoc "a.xml" "Venda" hh c4witem hm⟩

/-- The `ide` of the C9 counterexample: the header element is namespaced
but its `dhEmi` child is unqualified. -/
def c9ide : XmlTree :=
  .node ⟨some nsURI, "ide"⟩ none (XmlForest.ofList
    [.node ⟨none, "dhEmi"⟩ (some "2024-05-01T10:00:00") .nil])

/-- The mixed-qualification document of the C9 counterexample (the item is
fully namespaced so that a record is emitted and the timestamp is
observable). -/
def c9doc : XmlTree :=
  .node ⟨some nsURI, "NFe"⟩ none (XmlForest.ofList
    [c9ide,
     .node ⟨some nsURI, "det"⟩ none (XmlForest.ofList
       [.node ⟨some nsURI, "prod"⟩ none (XmlForest.ofList
         [.node ⟨some nsURI, "cProd"⟩ (some "P1") .nil])])])

/-- C9, counterexample: in `c9doc` the namespaced `ide` is found but its
namespaced `dhEmi` lookup yields nothing, while the unqualified `dhEmi`
child holds a timestamp; the claim says the timestamp is still extracted,
yet the emitted record's `data_hora_emissao` is null — the code never
retries the unqualified path once the namespaced `ide` is found. -/
theorem C9_counterexample :
    findDesc ⟨some nsURI, "ide"⟩ c9doc = some c9ide ∧
    childText ⟨some nsURI, "dhEmi"⟩ c9ide = none ∧
    childText ⟨none, "dhEmi"⟩ c9ide = some "2024-05-01T10:00:00" ∧
    (parse_xml_base (.wellFormed c9doc) "a.xml" "Venda").map
      (fun r => r.data_hora_emissao) = [none] :=
  ⟨rfl, rfl, rfl, rfl⟩

/-- C9, as amended: the fallback is per-element, not per-path.  When the
namespaced `ide` is found, every emitted record carries the text of its
**namespaced** `dhEmi` child only (null if that child is missing or
unqualified); only when no namespaced `ide` exists is the bare `ide` with
its bare `dhEmi` child consulted.  Mixed-qualification headers therefore
yield a null timestamp. -/
theorem C9_per_element_fallback (root : XmlTree) (a t : String) :
    (∀ ide, findDesc ⟨some nsURI, "ide"⟩ root = some ide →
      ∀ r ∈ parse_xml_base (.wellFormed root) a t,
        r.data_hora_emissao = childText ⟨some nsURI, "dhEmi"⟩ ide) ∧
    (findDesc ⟨some nsURI, "ide"⟩ root = none →
      ∀ ide, findDesc ⟨none, "ide"⟩ root = some ide →
        ∀ r ∈ parse_xml_base (.wellFormed root) a t,
          r.data_hora_emissao = childText ⟨none, "dhEmi"⟩ ide) := by
  constructor
  · intro ide hide r hr
    rw [parse_xml_base_wellFormed] at hr
    rw [parsePure_dh hr]
    unfold dhEmiPure
    rw [hide]
  · intro hnone ide hide r hr
    rw [parse_xml_base_wellFormed] at hr
    rw [parsePure_dh hr]
    unfold dhEmiPure
    rw [hnone, hide]

theorem C9_witness :
    findDesc ⟨some nsURI, "ide"⟩ sampleDoc = some sampleIde ∧
    sampleItem ∈ parse_xml_base (.wellFormed sampleDoc) "a.xml" "Venda" ∧
    sampleItem.data_hora_emissao = childText ⟨some nsURI, "dhEmi"⟩ sampleIde :=
  ⟨rfl, sample_mem,
    (C9_per_element_fallback sampleDoc "a.xml" "Venda").1 sampleIde rfl
      sampleItem sample_mem⟩
